import Mathlib

/-!
# Verification of the GFFUtils core against its specification

Shallow embedding of the GFFUtils core (GFFFile.py, clean/sgd.py,
annotation.py) as executable Lean definitions over `List Char`
(modelling Python 2 `str`), together with theorems settling the
specification claims about the attribute codec, the structured
feature identifier, the duplicate-SGD resolution engine and the
annotation ancestor lookup.

Conventions:
* Python strings are `List Char`.
* Python functions that can raise are `Option`-valued (`none` = exception).
* Python's unbounded `while` loop in `getAncestorGene` is modelled with
  explicit fuel; `none` at the outer layer means non-termination/exception.
-/

namespace GFFUtils

/-! ## Python string primitives -/

/-- Python `str.split(sep)` for a one-character separator:
splitting the empty string yields `[[]]`, and every separator
occurrence produces a boundary. -/
def pySplit (sep : Char) : List Char → List (List Char)
  | [] => [[]]
  | c :: cs =>
    let r := pySplit sep cs
    if c = sep then [] :: r
    else (c :: r.headI) :: r.tail

/-- Python `sep.join(items)` for a one-character separator. -/
def joinWith (sep : Char) : List (List Char) → List Char
  | [] => []
  | [s] => s
  | s :: s2 :: ss => s ++ sep :: joinWith sep (s2 :: ss)

/-- Python whitespace (the characters stripped by `str.strip()`). -/
def pyIsSpace (c : Char) : Bool :=
  c = ' ' ∨ c = '\t' ∨ c = '\n' ∨ c = '\r' ∨ c = '\x0b' ∨ c = '\x0c'

/-- Python `str.strip()`. -/
def pyStrip (s : List Char) : List Char :=
  ((s.dropWhile pyIsSpace).reverse.dropWhile pyIsSpace).reverse

/-- Index of the first occurrence of `c` (Python `str.index`, with
`none` modelling the `ValueError` when `c` is absent). -/
def pyIndexOf (c : Char) : List Char → Option Nat
  | [] => none
  | a :: rest => if a = c then some 0 else (pyIndexOf c rest).map (· + 1)

/-- Hex digits accepted by Python 2 `urllib.unquote` (`_hexdig`). -/
def isHexDig (c : Char) : Bool :=
  c ∈ ['0', '1', '2', '3', '4', '5', '6', '7', '8', '9',
       'A', 'B', 'C', 'D', 'E', 'F', 'a', 'b', 'c', 'd', 'e', 'f']

/-- Numeric value of a hex digit. -/
def hexVal (c : Char) : Nat :=
  if 97 ≤ c.toNat then c.toNat - 87
  else if 65 ≤ c.toNat then c.toNat - 55
  else c.toNat - 48

/-- Python 2 `urllib.unquote`, with explicit fuel (the list length is
always enough fuel, see `pyUnquote`): a `%` followed by two hex digits
becomes the corresponding byte; otherwise the `%` is kept verbatim. -/
def pyUnquoteAux : Nat → List Char → List Char
  | 0, s => s
  | _ + 1, [] => []
  | fuel + 1, '%' :: a :: b :: rest =>
    if isHexDig a ∧ isHexDig b then
      Char.ofNat (16 * hexVal a + hexVal b) :: pyUnquoteAux fuel rest
    else
      '%' :: pyUnquoteAux fuel (a :: b :: rest)
  | fuel + 1, c :: rest => c :: pyUnquoteAux fuel rest

/-- Python 2 `urllib.unquote`. -/
def pyUnquote (s : List Char) : List Char := pyUnquoteAux s.length s

/-- Python 2 `urllib.always_safe`: characters never escaped by `quote`. -/
def alwaysSafe (c : Char) : Bool :=
  c.isAlpha ∨ c.isDigit ∨ c = '_' ∨ c = '.' ∨ c = '-'

/-- Upper-case hex digit of a value below 16 (`'%02X'` formatting). -/
def hexDigitUpper (n : Nat) : Char :=
  if n < 10 then Char.ofNat (48 + n) else Char.ofNat (55 + n)

/-- The three-character escape `%XX` produced by `urllib.quote`. -/
def percentEscape (c : Char) : List Char :=
  ['%', hexDigitUpper (c.toNat / 16), hexDigitUpper (c.toNat % 16)]

/-- Python 2 `urllib.quote(s, safe)`: keep `always_safe` characters and
those in `safe`, escape the rest as `%XX`. -/
def pyQuote (safe : List Char) (s : List Char) : List Char :=
  s.flatMap (fun c => if alwaysSafe c ∨ c ∈ safe then [c] else percentEscape c)

/-- Python 2 `int(s)` on a string: optional surrounding whitespace, an
optional sign, then at least one decimal digit (`none` = `ValueError`). -/
def digitsToNat (s : List Char) : Nat :=
  s.foldl (fun acc c => 10 * acc + (c.toNat - 48)) 0

/-- Python 2 `int(s)`. -/
def pyInt (s : List Char) : Option Int :=
  let t := pyStrip s
  match t with
  | '-' :: rest =>
      if rest ≠ [] ∧ rest.all Char.isDigit then some (-(digitsToNat rest : Int))
      else none
  | '+' :: rest =>
      if rest ≠ [] ∧ rest.all Char.isDigit then some ((digitsToNat rest : Int))
      else none
  | _ =>
      if t ≠ [] ∧ t.all Char.isDigit then some ((digitsToNat t : Int))
      else none

/-- Decimal digit character (`'%d'` rendering of one digit). -/
def digitChar (n : Nat) : Char :=
  match n with
  | 0 => '0' | 1 => '1' | 2 => '2' | 3 => '3' | 4 => '4'
  | 5 => '5' | 6 => '6' | 7 => '7' | 8 => '8' | _ => '9'

/-- Decimal digits of a natural number, most significant first, with
explicit fuel (any fuel above the value is enough). -/
def natReprAux : Nat → Nat → List Char
  | 0, _ => []
  | fuel + 1, n =>
    if n < 10 then [digitChar n]
    else natReprAux fuel (n / 10) ++ [digitChar (n % 10)]

/-- Decimal rendering of a natural number (Python `'%d' % n` for `n ≥ 0`). -/
def natRepr (n : Nat) : List Char := natReprAux (n + 1) n

/-- Decimal rendering of an integer (Python `'%d' % i`). -/
def intRepr (i : Int) : List Char :=
  if i < 0 then '-' :: natRepr (-i).toNat else natRepr i.toNat

/-! ## GFFAttributes (GFFFile.py, class GFFAttributes)

The ordered dictionary of keyed attributes is modelled as an ordered
association list (`OrderedDictionary`: a key keeps its first-insertion
position, assignment to an existing key overwrites its value in place). -/

/-- Python `OrderedDictionary.__setitem__`: overwrite in place if the key exists,
otherwise append at the end. -/
def odSet (d : List (List Char × List Char)) (key value : List Char) :
    List (List Char × List Char) :=
  if d.any (fun p => p.1 = key) then
    d.map (fun p => if p.1 = key then (p.1, value) else p)
  else d ++ [(key, value)]

/-- The `GFFAttributes.__multivalued_attributes` constant. -/
def multivaluedAttributes : List (List Char) :=
  [ "Parent".toList, "Alias".toList, "Note".toList, "Dbxref".toList,
    "Ontology_term".toList ]

/-- The `safe` character set `" ,:^*$@!+?|"` used by `__escape_value`
for multi-valued keys. -/
def safeMulti : List Char :=
  [' ', ',', ':', '^', '*', '$', '@', '!', '+', '?', '|']

/-- The `safe` character set `" :^*$@!+?|"` used by `__escape_value`
for all other keys. -/
def safeDefault : List Char :=
  [' ', ':', '^', '*', '$', '@', '!', '+', '?', '|']

/-- State of `GFFAttributes`: ordered keyed data, unkeyed tokens, the
encoding flag and the trailing-semicolon flag. -/
structure GFFAttributes where
  data : List (List Char × List Char)
  nokeys : List (List Char)
  encode_values : Bool
  trailing_semicolon : Bool
deriving DecidableEq

/-- Processing of one `;`-separated item in `GFFAttributes.__init__`:
skip empty items; split at the first `=` (no `=` means empty key);
strip key and value, percent-decode the value; an empty key sends the
value to `nokeys`, otherwise store the key/value pair. -/
def parseItem (st : List (List Char × List Char) × List (List Char))
    (item : List Char) : List (List Char × List Char) × List (List Char) :=
  if item = [] then st
  else
    match pyIndexOf '=' item with
    | some i =>
      let key := pyStrip (item.take i)
      let value := pyUnquote (pyStrip (item.drop (i + 1)))
      if key = [] then (st.1, st.2 ++ [value]) else (odSet st.1 key value, st.2)
    | none =>
      let value := pyUnquote (pyStrip item)
      (st.1, st.2 ++ [value])

/-- Python `GFFAttributes.__init__(attribute_data)`: split the data on `;`,
process each item, and record whether the input ended with `;`.
An empty (falsy) input yields the empty attribute map. -/
def GFFAttributes.init (attribute_data : List Char) : GFFAttributes :=
  if attribute_data = [] then ⟨[], [], true, false⟩
  else
    let st := (pySplit ';' attribute_data).foldl parseItem ([], [])
    ⟨st.1, st.2, true, attribute_data.getLast? = some ';'⟩

/-- Python `GFFAttributes.__escape_value(key,value)`: percent-encode with the
wider safe set for multi-valued keys, the narrower one otherwise. -/
def escapeValue (key value : List Char) : List Char :=
  if key ∈ multivaluedAttributes then pyQuote safeMulti value
  else pyQuote safeDefault value

/-- Python `GFFAttributes.__repr__`: keyed items (encoded when the flag is set)
in insertion order, then the unkeyed tokens verbatim, then an empty item
when the input had a trailing semicolon, all joined with `;`. -/
def GFFAttributes.repr (a : GFFAttributes) : List Char :=
  let items :=
    if a.encode_values then
      a.data.map (fun p => p.1 ++ '=' :: escapeValue p.1 p.2)
    else
      a.data.map (fun p => p.1 ++ '=' :: p.2)
  let items := items ++ a.nokeys
  let items := if a.trailing_semicolon then items ++ [[]] else items
  joinWith ';' items

/-! ## GFFID (GFFFile.py, class GFFID) -/

/-- The structured identifier `{code, name, index}` handled by `GFFID`. -/
structure GFFID where
  code : List Char
  name : List Char
  index : Int
deriving DecidableEq

/-- Python `GFFID.__init__(gff_id)`: split on `:`; a single part is a bare name
(empty code, index 0); otherwise the first two parts are code and name,
and with more than two parts the third must parse as an integer
(`none` models the raised `ValueError`). -/
def GFFID.init (gff_id : List Char) : Option GFFID :=
  let items := pySplit ':' gff_id
  if items.length = 1 then some ⟨[], gff_id, 0⟩
  else
    let code := items.headI
    let name := items.tail.headI
    if 2 < items.length then
      match pyInt items.tail.tail.headI with
      | some i => some ⟨code, name, i⟩
      | none => none
    else some ⟨code, name, 0⟩

/-- Python `GFFID.__repr__`: the bare name when the code is empty, else
`code:name:index`. -/
def GFFID.repr (g : GFFID) : List Char :=
  if g.code = [] then g.name
  else g.code ++ ':' :: g.name ++ ':' :: intRepr g.index

/-! ## Duplicate-SGD resolution (clean/sgd.py)

A GFF annotation line is modelled by the fields the resolution engine
reads: `seqname`, `feature`, `start`, `end`, `strand`, the value of its
`ID` attribute, and its line number (pure payload here). A line of the
mapping file is `{name, chr, start, end, strand}`. -/

/-- A GFF data line as consumed by `clean/sgd.py` (`id` is the value of
the `ID` attribute). -/
structure GFFRecord where
  seqname : List Char
  feature : List Char
  start : Int
  «end» : Int
  strand : List Char
  id : List Char
  lineno : Nat
deriving DecidableEq, Inhabited

/-- A candidate-gene line of the mapping file. -/
structure MappingGene where
  name : List Char
  chr : List Char
  start : Int
  «end» : Int
  strand : List Char
deriving DecidableEq, Inhabited

/-- Loop state of `GroupByID`: remaining records, current subset,
collected subsets, index of the previous record.  A record whose `ID`
fails to parse makes the whole call fail (`ValueError`). -/
def GroupByID.go : List GFFRecord → List GFFRecord → List (List GFFRecord) →
    Option Int → Option (List (List GFFRecord))
  | [], this_subset, subsets, _ =>
    some (if this_subset = [] then subsets else subsets ++ [this_subset])
  | data :: rest, this_subset, subsets, last_index =>
    match GFFID.init data.id with
    | none => none
    | some g =>
      let this_index := g.index
      match last_index with
      | some l =>
        if this_index ≠ l + 1 then
          GroupByID.go rest [data] (subsets ++ [this_subset]) (some this_index)
        else
          GroupByID.go rest (this_subset ++ [data]) subsets (some this_index)
      | none => GroupByID.go rest (this_subset ++ [data]) subsets (some this_index)

/-- Python `GroupByID(gff_data)`: split a record list into subsets at every
record whose `ID` index is not the previous index plus one. -/
def GroupByID (gff_data : List GFFRecord) : Option (List (List GFFRecord)) :=
  GroupByID.go gff_data [] [] none

/-- Add a duplicate record to a gene's entry of `genes_to_duplicates`
(append to the gene's list, creating the entry on first use). -/
def addToGene (g2d : List (MappingGene × List GFFRecord)) (gene : MappingGene)
    (d : GFFRecord) : List (MappingGene × List GFFRecord) :=
  if g2d.any (fun p => p.1 = gene) then
    g2d.map (fun p => if p.1 = gene then (p.1, p.2 ++ [d]) else p)
  else g2d ++ [(gene, [d])]

/-- First loop of `GFFResolveDuplicateSGDs` over the duplicates of one
SGD: assign each duplicate to every mapping gene agreeing on chromosome
and strand; a duplicate matching no gene joins the provisional rejects. -/
def assignDuplicates (mapping_genes : List MappingGene) :
    List GFFRecord → List (MappingGene × List GFFRecord) → List GFFRecord →
    List (MappingGene × List GFFRecord) × List GFFRecord
  | [], g2d, rejects => (g2d, rejects)
  | duplicate :: rest, g2d, rejects =>
    let matching := mapping_genes.filter
      (fun gene => gene.chr = duplicate.seqname ∧ gene.strand = duplicate.strand)
    let g2d' := matching.foldl (fun acc gene => addToGene acc gene duplicate) g2d
    if matching = [] then
      assignDuplicates mapping_genes rest g2d' (rejects ++ [duplicate])
    else
      assignDuplicates mapping_genes rest g2d' rejects

/-- The overlap test of `GFFResolveDuplicateSGDs` on one grouped subset:
first record's start strictly above `gene.start - margin` and last
record's end strictly below `gene.end + margin`.  `none` models the
impossible empty subset. -/
def checkOverlap (overlap_margin : Int) (gene : MappingGene)
    (subset : List GFFRecord) : Option Bool :=
  match subset.head?, subset.getLast? with
  | some f, some l =>
    some (decide (f.start > gene.start - overlap_margin ∧
                  l.«end» < gene.«end» + overlap_margin))
  | _, _ => none

/-- Inner loop over the grouped subsets of one gene: accepted subsets
join `matched`, failing subsets are unpacked into the rejects. -/
def filterSubsets (overlap_margin : Int) (gene : MappingGene) :
    List (List GFFRecord) → List (List GFFRecord) → List GFFRecord →
    Option (List (List GFFRecord) × List GFFRecord)
  | [], matched, rejects => some (matched, rejects)
  | s :: rest, matched, rejects =>
    match checkOverlap overlap_margin gene s with
    | none => none
    | some true => filterSubsets overlap_margin gene rest (matched ++ [s]) rejects
    | some false => filterSubsets overlap_margin gene rest matched (rejects ++ s)

/-- Loop of `GFFResolveDuplicateSGDs` over `genes_to_duplicates`: group
each gene's duplicates with `GroupByID` and filter the groups by
overlap. -/
def overlapLoop (overlap_margin : Int) :
    List (MappingGene × List GFFRecord) → List (List GFFRecord) →
    List GFFRecord → Option (List (List GFFRecord) × List GFFRecord)
  | [], matched, rejects => some (matched, rejects)
  | (gene, dups) :: rest, matched, rejects =>
    match GroupByID dups with
    | none => none
    | some subsets =>
      match filterSubsets overlap_margin gene subsets matched rejects with
      | none => none
      | some (m, r) => overlapLoop overlap_margin rest m r

/-- The five classification outcomes of one duplicated SGD. -/
inductive SGDBucket where
  | resolved
  | no_mapping_genes
  | no_mapping_genes_after_filter
  | no_overlaps
  | multiple_matches
deriving DecidableEq

/-- Body of the main loop of `GFFResolveDuplicateSGDs` for one SGD:
returns its classification bucket and the records added to the discard
list (the provisional rejects, kept only when resolved). -/
def resolveOne (mapping_data : List MappingGene) (overlap_margin : Int)
    (sgd : List Char) (dups : List GFFRecord) :
    Option (SGDBucket × List GFFRecord) :=
  let mapping_genes := mapping_data.filter (fun gene => gene.name = sgd)
  if mapping_genes = [] then some (.no_mapping_genes, [])
  else
    let ar := assignDuplicates mapping_genes dups [] []
    if ar.1 = [] then some (.no_mapping_genes_after_filter, [])
    else
      match overlapLoop overlap_margin ar.1 [] ar.2 with
      | none => none
      | some (matched, rejects) =>
        if matched.length = 1 then some (.resolved, rejects)
        else if matched.length = 0 then some (.no_overlaps, [])
        else some (.multiple_matches, [])

/-- The result dictionary of `GFFResolveDuplicateSGDs`. -/
structure ResolveResult where
  resolved_sgds : List (List Char)
  unresolved_sgds : List (List Char)
  unresolved_sgds_no_mapping_genes : List (List Char)
  unresolved_sgds_no_mapping_genes_after_filter : List (List Char)
  unresolved_sgds_no_overlaps : List (List Char)
  unresolved_sgds_multiple_matches : List (List Char)
  discard : List GFFRecord
deriving DecidableEq

/-- The freshly initialised result dictionary. -/
def emptyResult : ResolveResult := ⟨[], [], [], [], [], [], []⟩

/-- Record one SGD's outcome in the result (append the SGD to its
bucket; a resolved SGD also appends its rejects to the discard list). -/
def addToBucket (res : ResolveResult) (sgd : List Char) :
    SGDBucket → List GFFRecord → ResolveResult
  | .resolved, ds =>
    { res with resolved_sgds := res.resolved_sgds ++ [sgd],
               discard := res.discard ++ ds }
  | .no_mapping_genes, _ =>
    { res with unresolved_sgds_no_mapping_genes :=
                 res.unresolved_sgds_no_mapping_genes ++ [sgd] }
  | .no_mapping_genes_after_filter, _ =>
    { res with unresolved_sgds_no_mapping_genes_after_filter :=
                 res.unresolved_sgds_no_mapping_genes_after_filter ++ [sgd] }
  | .no_overlaps, _ =>
    { res with unresolved_sgds_no_overlaps :=
                 res.unresolved_sgds_no_overlaps ++ [sgd] }
  | .multiple_matches, _ =>
    { res with unresolved_sgds_multiple_matches :=
                 res.unresolved_sgds_multiple_matches ++ [sgd] }

/-- Main loop of `GFFResolveDuplicateSGDs` over the duplicates
dictionary (`for sgd in duplicates.keys()`). -/
def resolveLoop (mapping_data : List MappingGene) (overlap_margin : Int) :
    List (List Char × List GFFRecord) → ResolveResult → Option ResolveResult
  | [], res => some res
  | (sgd, dups) :: rest, res =>
    match resolveOne mapping_data overlap_margin sgd dups with
    | none => none
    | some (b, ds) =>
      resolveLoop mapping_data overlap_margin rest (addToBucket res sgd b ds)

/-- Final step of `GFFResolveDuplicateSGDs`: the aggregate unresolved
list is extended with the four unresolved buckets in order. -/
def finishResult (res : ResolveResult) : ResolveResult :=
  { res with unresolved_sgds :=
      res.unresolved_sgds ++ res.unresolved_sgds_no_mapping_genes ++
      res.unresolved_sgds_no_mapping_genes_after_filter ++
      res.unresolved_sgds_no_overlaps ++
      res.unresolved_sgds_multiple_matches }

/-- Python `GFFResolveDuplicateSGDs(gff_data, mapping_data, duplicates,
overlap_margin)` (the `gff_data` argument is never read by the source
function). The duplicates dictionary is an ordered association list
with the duplicated SGDs as keys. -/
def GFFResolveDuplicateSGDs (gff_data : List GFFRecord)
    (mapping_data : List MappingGene)
    (duplicates : List (List Char × List GFFRecord)) (overlap_margin : Int) :
    Option ResolveResult :=
  let _unused := gff_data
  (resolveLoop mapping_data overlap_margin duplicates emptyResult).map
    finishResult

/-- State-threaded form of `GFFResolveDuplicateSGDs` for the frame
claim: the three inputs are bundled as mutable state and every
translated statement passes the state through (none of them writes to
it). -/
structure ResolveState where
  gff_data : List GFFRecord
  mapping_data : List MappingGene
  duplicates : List (List Char × List GFFRecord)
deriving DecidableEq

/-- Main loop of the state-threaded translation: each iteration reads
the mapping data from the state and returns the state it received. -/
def resolveLoopSt (overlap_margin : Int) :
    List (List Char × List GFFRecord) → ResolveState → ResolveResult →
    Option (ResolveState × ResolveResult)
  | [], st, res => some (st, res)
  | (sgd, dups) :: rest, st, res =>
    match resolveOne st.mapping_data overlap_margin sgd dups with
    | none => none
    | some (b, ds) =>
      resolveLoopSt overlap_margin rest st (addToBucket res sgd b ds)

/-- State-threaded `GFFResolveDuplicateSGDs`: returns the final state
alongside the result dictionary. -/
def GFFResolveDuplicateSGDsSt (st : ResolveState) (overlap_margin : Int) :
    Option (ResolveState × ResolveResult) :=
  (resolveLoopSt overlap_margin st.duplicates st emptyResult).map
    (fun p => (p.1, finishResult p.2))

/-! ## Annotation lookup (annotation.py, class GFFAnnotationLookup) -/

/-- The two lookup tables of `GFFAnnotationLookup` (built by
`_load_from_gff`): `lookup_id` maps an `ID` attribute value to the list
of records carrying it, `lookup_parent` maps it to the record's
`Parent` attribute value. -/
structure GFFAnnotationLookup where
  lookup_id : List (List Char × List GFFRecord)
  lookup_parent : List (List Char × List Char)
deriving DecidableEq

/-- Dictionary lookup (`none` models a `KeyError`). -/
def assocFind {α : Type} (m : List (List Char × α)) (k : List Char) : Option α :=
  (m.find? (fun p => p.1 = k)).map Prod.snd

/-- Python `getDataFromID(idx)`: the records indexed under `idx`. -/
def GFFAnnotationLookup.getDataFromID (lk : GFFAnnotationLookup)
    (idx : List Char) : Option (List GFFRecord) :=
  assocFind lk.lookup_id idx

/-- Python `getParentID(idx)`: the parent identifier of `idx`. -/
def GFFAnnotationLookup.getParentID (lk : GFFAnnotationLookup)
    (idx : List Char) : Option (List Char) :=
  assocFind lk.lookup_parent idx

/-- The `while True` parent-chasing loop of `getAncestorGene`, with
explicit fuel: returns the first identifier in the parent chain that
has no parent entry (`none` when the fuel runs out, modelling
non-termination on a cyclic chain). -/
def chaseParents (lk : GFFAnnotationLookup) : Nat → List Char →
    Option (List Char)
  | 0, _ => none
  | fuel + 1, idx =>
    match lk.getParentID idx with
    | none => some idx
    | some p => chaseParents lk fuel p

/-- Python `getAncestorGene(idx)`: follow parents to the end of the chain;
with zero hops the result is Python `None` (`some none`); otherwise the
terminal identifier is looked up (a missing entry raises `KeyError`,
the outer `none`) and the first record of feature type `gene` is
returned, or Python `None` when no record of the list is a gene. -/
def GFFAnnotationLookup.getAncestorGene (lk : GFFAnnotationLookup)
    (fuel : Nat) (idx : List Char) : Option (Option GFFRecord) :=
  match chaseParents lk fuel idx with
  | none => none
  | some idx0 =>
    if idx0 = idx then some none
    else
      match lk.getDataFromID idx0 with
      | none => none
      | some datas =>
        some (datas.find? (fun data => data.feature = "gene".toList))

/-! ## Lemmas about the string primitives -/

theorem pySplit_ne_nil (sep : Char) (l : List Char) : pySplit sep l ≠ [] := by
  cases l with
  | nil => simp [pySplit]
  | cons c cs => simp only [pySplit]; split <;> simp

theorem pySplit_not_mem {sep : Char} {l : List Char} (h : sep ∉ l) :
    pySplit sep l = [l] := by
  induction l with
  | nil => rfl
  | cons c cs ih =>
    simp only [List.mem_cons, not_or] at h
    simp only [pySplit, ih h.2]
    rw [if_neg (fun hc => h.1 hc.symm)]
    simp

theorem pySplit_append {sep : Char} {s t h2 : List Char}
    {tl : List (List Char)} (hs : sep ∉ s) (ht : pySplit sep t = h2 :: tl) :
    pySplit sep (s ++ t) = (s ++ h2) :: tl := by
  induction s with
  | nil => simpa using ht
  | cons c cs ih =>
    simp only [List.mem_cons, not_or] at hs
    simp only [List.cons_append, pySplit, List.append_eq]
    rw [ih hs.2, if_neg (fun hc => hs.1 hc.symm)]
    simp

theorem pySplit_joinWith {sep : Char} {ls : List (List Char)}
    (h : ∀ x ∈ ls, sep ∉ x) (hne : ls ≠ []) :
    pySplit sep (joinWith sep ls) = ls := by
  induction ls with
  | nil => exact absurd rfl hne
  | cons s ss ih =>
    cases ss with
    | nil => exact pySplit_not_mem (h s (by simp))
    | cons s2 ss' =>
      have hrest : pySplit sep (joinWith sep (s2 :: ss')) = s2 :: ss' :=
        ih (fun x hx => h x (by simp [hx])) (by simp)
      have hsep : pySplit sep (sep :: joinWith sep (s2 :: ss')) =
          [] :: s2 :: ss' := by
        simp [pySplit, hrest]
      have happ := pySplit_append (h s (by simp)) hsep
      simpa [joinWith] using happ

theorem dropWhile_eq_self_of {p : Char → Bool} {l : List Char}
    (h : ∀ c ∈ l, p c = false) : l.dropWhile p = l := by
  cases l with
  | nil => rfl
  | cons c cs => simp [List.dropWhile_cons, h c (by simp)]

theorem pyStrip_eq_self {s : List Char}
    (h : ∀ c ∈ s, pyIsSpace c = false) : pyStrip s = s := by
  unfold pyStrip
  rw [dropWhile_eq_self_of h,
      dropWhile_eq_self_of (fun c hc => h c (List.mem_reverse.mp hc)),
      List.reverse_reverse]

theorem digitChar_isDigit (n : Nat) : (digitChar n).isDigit = true := by
  unfold digitChar
  split <;> decide

theorem digitChar_toNat {n : Nat} (h : n < 10) :
    (digitChar n).toNat - 48 = n := by
  interval_cases n <;> decide

theorem natReprAux_all_digits (fuel n : Nat) :
    ∀ c ∈ natReprAux fuel n, c.isDigit = true := by
  induction fuel generalizing n with
  | zero => simp [natReprAux]
  | succ fuel ih =>
    intro c hc
    simp only [natReprAux] at hc
    split at hc
    · simp only [List.mem_singleton] at hc
      exact hc ▸ digitChar_isDigit n
    · rcases List.mem_append.mp hc with h1 | h1
      · exact ih (n / 10) c h1
      · simp only [List.mem_singleton] at h1
        exact h1 ▸ digitChar_isDigit (n % 10)

theorem natRepr_all_digits (n : Nat) :
    ∀ c ∈ natRepr n, c.isDigit = true :=
  natReprAux_all_digits (n + 1) n

theorem natReprAux_ne_nil {fuel n : Nat} (h : n < fuel) :
    natReprAux fuel n ≠ [] := by
  cases fuel with
  | zero => omega
  | succ fuel =>
    simp only [natReprAux]
    split <;> simp

theorem digitsToNat_natReprAux {fuel n : Nat} (h : n < fuel) :
    digitsToNat (natReprAux fuel n) = n := by
  induction fuel generalizing n with
  | zero => omega
  | succ fuel ih =>
    simp only [natReprAux]
    split
    · next hlt =>
      simp only [digitsToNat, List.foldl_cons, List.foldl_nil]
      rw [digitChar_toNat hlt]
      omega
    · next hge =>
      have h10 : 10 ≤ n := by omega
      have hdiv : n / 10 < fuel := by
        have := Nat.div_lt_self (by omega : 0 < n) (by omega : 1 < 10)
        omega
      simp only [digitsToNat, List.foldl_append, List.foldl_cons,
                 List.foldl_nil]
      have := ih hdiv
      simp only [digitsToNat] at this
      rw [this, digitChar_toNat (Nat.mod_lt n (by omega))]
      omega

theorem digitsToNat_natRepr (n : Nat) : digitsToNat (natRepr n) = n :=
  digitsToNat_natReprAux (Nat.lt_succ_self n)

theorem digit_not_space {c : Char} (h : c.isDigit = true) :
    pyIsSpace c = false := by
  simp only [Char.isDigit] at h
  simp only [pyIsSpace, decide_eq_false_iff_not]
  intro hsp
  rcases hsp with h1 | h1 | h1 | h1 | h1 | h1 <;>
    (rw [h1] at h; simp_all)

theorem pyInt_natRepr (n : Nat) : pyInt (natRepr n) = some (n : Int) := by
  have hdig := natRepr_all_digits n
  have hne : natRepr n ≠ [] := natReprAux_ne_nil (Nat.lt_succ_self n)
  have hstrip : pyStrip (natRepr n) = natRepr n :=
    pyStrip_eq_self (fun c hc => digit_not_space (hdig c hc))
  unfold pyInt
  rw [hstrip]
  dsimp only
  split
  · next rest heq =>
    exact absurd (hdig '-' (heq ▸ List.mem_cons_self _ _)) (by decide)
  · next rest heq =>
    exact absurd (hdig '+' (heq ▸ List.mem_cons_self _ _)) (by decide)
  · rw [if_pos ⟨hne, List.all_eq_true.mpr (fun c hc => hdig c hc)⟩,
        digitsToNat_natRepr]

theorem colon_not_mem_natRepr (n : Nat) : ':' ∉ natRepr n := by
  intro hmem
  exact absurd (natRepr_all_digits n ':' hmem) (by decide)

/-! ## Claim C10: two-segment identifier parsing -/

/-- C10 (confirmed): a string `a:b` with exactly one colon parses
without error into `{code := a, name := b, index := 0}` — the second
segment is taken as the name, never as an index. -/
theorem claim10_two_segment_id (a b : List Char) (ha : ':' ∉ a)
    (hb : ':' ∉ b) : GFFID.init (a ++ ':' :: b) = some ⟨a, b, 0⟩ := by
  have hb' : pySplit ':' (':' :: b) = [] :: [b] := by
    simp [pySplit, pySplit_not_mem hb]
  have hsplit : pySplit ':' (a ++ ':' :: b) = [a, b] := by
    simpa using pySplit_append ha hb'
  simp [GFFID.init, hsplit]

/-- C10 witness: `mRNA:DDB0166998` parses to
`{code := mRNA, name := DDB0166998, index := 0}`. -/
theorem claim10_witness :
    GFFID.init (("mRNA").toList ++ ':' :: ("DDB0166998").toList) =
      some ⟨("mRNA").toList, ("DDB0166998").toList, 0⟩ :=
  claim10_two_segment_id _ _ (by decide) (by decide)

/-! ## Claim C2: FeatureID round-trip -/

/-- C2 counterexample: with an empty code and index 1, formatting
renders the bare name, and re-parsing loses the index (it comes back
as 0, not 1) — the round-trip law fails as stated. -/
theorem claim2_counterexample :
    GFFID.init (GFFID.repr ⟨[], ("X").toList, 1⟩) =
        some ⟨[], ("X").toList, 0⟩ ∧
    GFFID.init (GFFID.repr ⟨[], ("X").toList, 1⟩) ≠
        some ⟨[], ("X").toList, 1⟩ := by
  decide

/-- C2 (corrected): the FeatureID round-trip
`parse(format({code,name,index})) = {code,name,index}` holds for
colon-free `code` and `name` and `index ≥ 0`, provided additionally
that `index = 0` whenever `code` is empty (an empty code formats as
the bare name, discarding a non-zero index). -/
theorem claim2_roundtrip (code name : List Char) (index : Int)
    (hc : ':' ∉ code) (hn : ':' ∉ name) (hi : 0 ≤ index)
    (hce : code = [] → index = 0) :
    GFFID.init (GFFID.repr ⟨code, name, index⟩) = some ⟨code, name, index⟩ := by
  by_cases hcode : code = []
  · have hidx := hce hcode
    subst hcode
    subst hidx
    simp [GFFID.repr, GFFID.init, pySplit_not_mem hn]
  · have hrepr : GFFID.repr ⟨code, name, index⟩ =
        code ++ ':' :: (name ++ ':' :: natRepr index.toNat) := by
      simp only [GFFID.repr, if_neg hcode, intRepr,
                 if_neg (by omega : ¬ index < 0), List.cons_append,
                 List.append_assoc]
    have h3 : pySplit ':' (':' :: natRepr index.toNat) =
        [] :: [natRepr index.toNat] := by
      simp [pySplit, pySplit_not_mem (colon_not_mem_natRepr index.toNat)]
    have h2 : pySplit ':' (name ++ ':' :: natRepr index.toNat) =
        name :: [natRepr index.toNat] := by
      simpa using pySplit_append hn h3
    have h1 : pySplit ':' (':' :: (name ++ ':' :: natRepr index.toNat)) =
        [] :: name :: [natRepr index.toNat] := by
      simp [pySplit, h2]
    have h0 : pySplit ':'
        (code ++ ':' :: (name ++ ':' :: natRepr index.toNat)) =
        code :: name :: [natRepr index.toNat] := by
      simpa using pySplit_append hc h1
    rw [hrepr]
    simp [GFFID.init, h0, pyInt_natRepr, Int.toNat_of_nonneg hi]

/-- C2 witness: `CDS:YEL0W:2` round-trips. -/
theorem claim2_witness :
    GFFID.init (GFFID.repr ⟨("CDS").toList, ("YEL0W").toList, 2⟩) =
      some ⟨("CDS").toList, ("YEL0W").toList, 2⟩ :=
  claim2_roundtrip _ _ _ (by decide) (by decide) (by decide)
    (by intro h; exact absurd h (by decide))

/-! ## Claim C3: GroupByID splitting -/

/-- Record with a given line number and `ID` attribute value, with the
other fields fixed, for the C3 grouping scenario. -/
def c3rec (i : Nat) (idx : List Char) : GFFRecord :=
  ⟨("chr1").toList, ("CDS").toList, 0, 0, ['-'], idx, i⟩

/-- The six records of the C3 scenario, with structured-ID indices
`[1, 2, 3, 1, 5, 6]`. -/
def c3r1 : GFFRecord := c3rec 1 (("CDS:YEL0W:1").toList)

/-- Second record, index 2. -/
def c3r2 : GFFRecord := c3rec 2 (("CDS:YEL0W:2").toList)

/-- Third record, index 3. -/
def c3r3 : GFFRecord := c3rec 3 (("CDS:YEL0W:3").toList)

/-- Fourth record, index 1 again (non-consecutive after 3). -/
def c3r4 : GFFRecord := c3rec 4 (("CDS:YEL0W:1").toList)

/-- Fifth record, index 5 (non-consecutive after 1). -/
def c3r5 : GFFRecord := c3rec 5 (("CDS:YEL0W:5").toList)

/-- Sixth record, index 6. -/
def c3r6 : GFFRecord := c3rec 6 (("CDS:YEL0W:6").toList)

/-- The C3 record sequence with index fields `[1, 2, 3, 1, 5, 6]`. -/
def claim3Records : List GFFRecord := [c3r1, c3r2, c3r3, c3r4, c3r5, c3r6]

/-- C3 counterexample: on indices `[1, 2, 3, 1, 5, 6]` `GroupByID`
yields THREE groups `[1,2,3]`, `[1]`, `[5,6]` — not the claimed two
groups `[1,2,3]` and `[5,6]` (under either reading of where the fourth
record would go). -/
theorem claim3_counterexample :
    GroupByID claim3Records = some [[c3r1, c3r2, c3r3], [c3r4], [c3r5, c3r6]] ∧
    GroupByID claim3Records ≠ some [[c3r1, c3r2, c3r3], [c3r5, c3r6]] ∧
    GroupByID claim3Records ≠ some [[c3r1, c3r2, c3r3], [c3r4, c3r5, c3r6]] := by
  decide

/-- C3 (corrected): `GroupByID` starts a new group at EVERY record
whose index is not the previous record's index plus one, so the index
sequence `[1,2,3,1,5,6]` yields the groups `[1,2,3]`, `[1]` and
`[5,6]`. -/
theorem claim3_groups :
    GroupByID claim3Records =
      some [[c3r1, c3r2, c3r3], [c3r4], [c3r5, c3r6]] := by
  decide

/-! ## Claims C6 and C7: ancestor-gene lookup -/

/-- A finite parent chain: `isParentChain lk idx chain` says that
following `Parent` entries from `idx` visits exactly the identifiers of
`chain`, whose last element has no parent entry (for an empty chain,
`idx` itself has none). -/
def isParentChain (lk : GFFAnnotationLookup) :
    List Char → List (List Char) → Prop
  | idx, [] => lk.getParentID idx = none
  | idx, j :: rest => lk.getParentID idx = some j ∧ isParentChain lk j rest

theorem parentChain_last_none {lk : GFFAnnotationLookup} {idx : List Char}
    {chain : List (List Char)} (h : isParentChain lk idx chain) :
    lk.getParentID ((idx :: chain).getLast (by simp)) = none := by
  induction chain generalizing idx with
  | nil => simpa [isParentChain] using h
  | cons j rest ih =>
    obtain ⟨_, h2⟩ := h
    simpa [List.getLast_cons] using ih h2

theorem chaseParents_of_chain {lk : GFFAnnotationLookup} {idx : List Char}
    {chain : List (List Char)} (h : isParentChain lk idx chain) {fuel : Nat}
    (hf : chain.length < fuel) :
    chaseParents lk fuel idx = some ((idx :: chain).getLast (by simp)) := by
  induction chain generalizing idx fuel with
  | nil =>
    cases fuel with
    | zero => omega
    | succ fuel =>
      simp only [isParentChain] at h
      simp [chaseParents, h]
  | cons j rest ih =>
    cases fuel with
    | zero => omega
    | succ fuel =>
      obtain ⟨h1, h2⟩ := h
      simp only [chaseParents, h1]
      rw [ih h2 (by simpa using hf)]
      simp [List.getLast_cons]

/-- Behaviour of `getAncestorGene` at the end of a non-empty parent
chain: look up the terminal identifier's records (`KeyError` when
absent) and return the first `gene`-typed one, Python `None` when there
is none. -/
theorem getAncestorGene_chain {lk : GFFAnnotationLookup} {idx j : List Char}
    {rest : List (List Char)} {fuel : Nat}
    (hchain : isParentChain lk idx (j :: rest))
    (hf : (j :: rest).length < fuel) :
    lk.getAncestorGene fuel idx =
      match lk.getDataFromID ((j :: rest).getLast (by simp)) with
      | none => none
      | some datas =>
        some (datas.find? (fun data => data.feature = "gene".toList)) := by
  have hterm := chaseParents_of_chain hchain hf
  have hlast : ((idx :: j :: rest).getLast (by simp)) =
      ((j :: rest).getLast (by simp)) := List.getLast_cons (by simp)
  have hne : ((j :: rest).getLast (by simp)) ≠ idx := by
    intro heq
    have hnone := parentChain_last_none hchain
    rw [hlast, heq] at hnone
    rw [hchain.1] at hnone
    exact Option.noConfusion hnone
  unfold GFFAnnotationLookup.getAncestorGene
  rw [hterm, hlast]
  dsimp only
  rw [if_neg hne]

/-- C6 (confirmed): if a record's parent chain of length ≥ 1 ends at an
identifier whose indexed records contain a `gene`-typed record, then
`getAncestorGene` returns that gene record; and an identifier with no
parent entry at all (zero hops) yields "no ancestor" (Python `None`),
not an error. -/
theorem claim6_ancestor_gene :
    (∀ (lk : GFFAnnotationLookup) (idx j : List Char)
       (rest : List (List Char)) (fuel : Nat) (datas : List GFFRecord)
       (g : GFFRecord),
       isParentChain lk idx (j :: rest) → (j :: rest).length < fuel →
       lk.getDataFromID ((j :: rest).getLast (by simp)) = some datas →
       datas.find? (fun data => data.feature = "gene".toList) = some g →
       lk.getAncestorGene fuel idx = some (some g)) ∧
    (∀ (lk : GFFAnnotationLookup) (idx : List Char) (fuel : Nat),
       lk.getParentID idx = none →
       lk.getAncestorGene (fuel + 1) idx = some none) := by
  constructor
  · intro lk idx j rest fuel datas g hchain hf hdata hfind
    rw [getAncestorGene_chain hchain hf, hdata]
    dsimp only
    rw [hfind]
  · intro lk idx fuel h
    unfold GFFAnnotationLookup.getAncestorGene
    simp [chaseParents, h]

/-- The gene record of the C6/C7 example lookups. -/
def c6gene : GFFRecord :=
  ⟨("chr1").toList, ("gene").toList, 1, 100, ['+'], ("gene1").toList, 1⟩

/-- Example lookup, with chain `exon1 → mRNA1 → gene1` ending at a
gene record. -/
def c6lookup : GFFAnnotationLookup :=
  ⟨[(("gene1").toList, [c6gene])],
   [(("exon1").toList, ("mRNA1").toList),
    (("mRNA1").toList, ("gene1").toList)]⟩

/-- C6 witness: in the example lookup, `getAncestorGene` follows
`exon1 → mRNA1 → gene1` to the gene record, and `gene1` itself (no
parent entry) yields `None` without error. -/
theorem claim6_witness :
    c6lookup.getAncestorGene 5 (("exon1").toList) = some (some c6gene) ∧
    c6lookup.getAncestorGene 5 (("gene1").toList) = some none :=
  ⟨claim6_ancestor_gene.1 c6lookup (("exon1").toList) (("mRNA1").toList)
      [("gene1").toList] 5 [c6gene] c6gene
      ⟨by decide, by decide,
       show c6lookup.getParentID (("gene1").toList) = none by decide⟩
      (by decide) (by decide) (by decide),
   claim6_ancestor_gene.2 c6lookup (("gene1").toList) 4 (by decide)⟩

/-- A non-gene record (feature `tRNA`) indexed under `tRNA1`. -/
def c7trna : GFFRecord :=
  ⟨("chr1").toList, ("tRNA").toList, 1, 100, ['+'], ("tRNA1").toList, 1⟩

/-- Lookup whose parent chain `exon1 → tRNA1` ends at a non-gene
record. -/
def c7lookup : GFFAnnotationLookup :=
  ⟨[(("tRNA1").toList, [c7trna])],
   [(("exon1").toList, ("tRNA1").toList)]⟩

/-- Lookup whose parent chain `exon1 → ghost1` ends at an identifier
with no indexed records at all. -/
def c7lookupMissing : GFFAnnotationLookup :=
  ⟨[], [(("exon1").toList, ("ghost1").toList)]⟩

/-- C7 counterexample: a one-hop chain ending at a record whose feature
type is `tRNA` (not `gene`) makes `getAncestorGene` return Python
`None` (`some none`) — it does NOT raise a hard error (`none`),
contradicting the claim. -/
theorem claim7_counterexample :
    c7lookup.getAncestorGene 5 (("exon1").toList) = some none ∧
    c7lookup.getAncestorGene 5 (("exon1").toList) ≠ none := by
  decide

/-- C7 (corrected): when the parent chain (≥ 1 hop) ends at an
identifier whose indexed records exist but contain no `gene`-typed
record, `getAncestorGene` silently returns "no ancestor" (Python
`None`), exactly as in the zero-hop case; a hard error (`KeyError`)
occurs only when the terminal identifier has no indexed records at
all. -/
theorem claim7_non_gene_terminal :
    (∀ (lk : GFFAnnotationLookup) (idx j : List Char)
       (rest : List (List Char)) (fuel : Nat) (datas : List GFFRecord),
       isParentChain lk idx (j :: rest) → (j :: rest).length < fuel →
       lk.getDataFromID ((j :: rest).getLast (by simp)) = some datas →
       datas.find? (fun data => data.feature = "gene".toList) = none →
       lk.getAncestorGene fuel idx = some none) ∧
    (∀ (lk : GFFAnnotationLookup) (idx j : List Char)
       (rest : List (List Char)) (fuel : Nat),
       isParentChain lk idx (j :: rest) → (j :: rest).length < fuel →
       lk.getDataFromID ((j :: rest).getLast (by simp)) = none →
       lk.getAncestorGene fuel idx = none) := by
  constructor
  · intro lk idx j rest fuel datas hchain hf hdata hfind
    rw [getAncestorGene_chain hchain hf, hdata]
    dsimp only
    rw [hfind]
  · intro lk idx j rest fuel hchain hf hdata
    rw [getAncestorGene_chain hchain hf, hdata]

/-- C7 witness: the `tRNA`-terminated chain returns `some none`, and
the chain ending at an unindexed identifier returns `none`
(`KeyError`). -/
theorem claim7_witness :
    c7lookup.getAncestorGene 5 (("exon1").toList) = some none ∧
    c7lookupMissing.getAncestorGene 5 (("exon1").toList) = none :=
  ⟨claim7_non_gene_terminal.1 c7lookup (("exon1").toList)
      (("tRNA1").toList) [] 5 [c7trna]
      ⟨by decide, show c7lookup.getParentID (("tRNA1").toList) = none by decide⟩
      (by decide) (by decide) (by decide),
   claim7_non_gene_terminal.2 c7lookupMissing (("exon1").toList)
      (("ghost1").toList) [] 5
      ⟨by decide,
       show c7lookupMissing.getParentID (("ghost1").toList) = none by decide⟩
      (by decide) (by decide)⟩

/-! ## Claim C5: overlap-filter strictness -/

/-- Acceptance of a grouped run by a candidate gene's margin-expanded
region: the run's first record's start strictly above the lower bound
AND the run's last record's end strictly below the upper bound. -/
def acceptRun (overlap_margin : Int) (gene : MappingGene)
    (s : List GFFRecord) : Bool :=
  decide (s.headI.start > gene.start - overlap_margin ∧
          s.getLastI.«end» < gene.«end» + overlap_margin)

theorem checkOverlap_eq {m : Int} {gene : MappingGene} {s : List GFFRecord}
    (h : s ≠ []) : checkOverlap m gene s = some (acceptRun m gene s) := by
  obtain ⟨a, t, rfl⟩ : ∃ a t, s = a :: t := by
    cases s with
    | nil => exact absurd rfl h
    | cons a t => exact ⟨a, t, rfl⟩
  obtain ⟨x, hx⟩ := Option.isSome_iff_exists.mp
    (List.getLast?_isSome.mpr (List.cons_ne_nil a t))
  unfold checkOverlap acceptRun
  rw [hx]
  simp [List.getLastI_eq_getLast?, hx]

theorem filterSubsets_eq {m : Int} {gene : MappingGene} :
    ∀ {subsets : List (List GFFRecord)}, (∀ s ∈ subsets, s ≠ []) →
    ∀ (am : List (List GFFRecord)) (ar : List GFFRecord),
    filterSubsets m gene subsets am ar =
      some (am ++ subsets.filter (fun s => acceptRun m gene s),
            ar ++ (subsets.filter (fun s => ¬ acceptRun m gene s)).flatten) := by
  intro subsets
  induction subsets with
  | nil => intro _ am ar; simp [filterSubsets]
  | cons s rest ih =>
    intro hne am ar
    have hs : s ≠ [] := hne s (by simp)
    unfold filterSubsets
    rw [checkOverlap_eq hs]
    cases hacc : acceptRun m gene s with
    | true =>
      dsimp only
      rw [ih (fun x hx => hne x (by simp [hx])) (am ++ [s]) ar]
      simp [List.filter_cons, hacc]
    | false =>
      dsimp only
      rw [ih (fun x hx => hne x (by simp [hx])) am (ar ++ s)]
      simp [List.filter_cons, hacc]

/-- C5 (confirmed): within the overlap-filter step, a grouped run is
put into the matches exactly when its first record's start is strictly
greater than `gene.start - margin` and its last record's end is
strictly less than `gene.end + margin`; every failing run (including
boundary-touching ones, where equality holds) has its records appended
to the provisional reject list instead. -/
theorem claim5_overlap_strictness (m : Int) (gene : MappingGene)
    (subsets : List (List GFFRecord)) (am : List (List GFFRecord))
    (ar : List GFFRecord) (hne : ∀ s ∈ subsets, s ≠ []) :
    filterSubsets m gene subsets am ar =
      some (am ++ subsets.filter (fun s => acceptRun m gene s),
            ar ++ (subsets.filter (fun s => ¬ acceptRun m gene s)).flatten) ∧
    (∀ (f : GFFRecord) (t : List GFFRecord),
       acceptRun m gene (f :: t) = true ↔
         (f.start > gene.start - m ∧
          (f :: t).getLastI.«end» < gene.«end» + m)) := by
  refine ⟨filterSubsets_eq hne am ar, ?_⟩
  intro f t
  simp [acceptRun]

/-- Candidate gene for the C5 witness: accepted region
`[100 - 10, 200 + 10] = [90, 210]`. -/
def c5gene : MappingGene :=
  ⟨("YEL0W").toList, ("chr1").toList, 100, 200, ['-']⟩

/-- A run lying strictly inside the region `(90, 210)`. -/
def c5inside : GFFRecord :=
  ⟨("chr1").toList, ("CDS").toList, 95, 205, ['-'],
    ("CDS:YEL0W:1").toList, 1⟩

/-- A run touching the region's lower bound exactly (start = 90). -/
def c5boundary : GFFRecord :=
  ⟨("chr1").toList, ("CDS").toList, 90, 205, ['-'],
    ("CDS:YEL0W:1").toList, 2⟩

/-- C5 witness: with margin 10, the strictly-inside run `[95, 205]` is
matched and the boundary-touching run `[90, 205]` (start equal to the
lower bound 90) is rejected into the reject list. -/
theorem claim5_witness :
    filterSubsets 10 c5gene [[c5inside], [c5boundary]] [] [] =
      some ([[c5inside]], [c5boundary]) ∧
    acceptRun 10 c5gene [c5inside] = true := by
  have h := claim5_overlap_strictness 10 c5gene [[c5inside], [c5boundary]]
    [] [] (by decide)
  refine ⟨?_, (h.2 c5inside []).mpr (by decide)⟩
  rw [h.1]
  decide

/-! ## Claim C4: duplicate classification completeness -/

/-- Concatenation of the five classification buckets of a
`ResolveResult`. -/
def allBuckets (r : ResolveResult) : List (List Char) :=
  r.resolved_sgds ++ r.unresolved_sgds_no_mapping_genes ++
  r.unresolved_sgds_no_mapping_genes_after_filter ++
  r.unresolved_sgds_no_overlaps ++ r.unresolved_sgds_multiple_matches

theorem count_singleton_lc (s a : List Char) :
    List.count a [s] = if s = a then 1 else 0 := by
  by_cases h : s = a <;> simp [List.count_cons, beq_iff_eq, h]

theorem allBuckets_addToBucket (res : ResolveResult) (sgd : List Char)
    (b : SGDBucket) (ds : List GFFRecord) (a : List Char) :
    (allBuckets (addToBucket res sgd b ds)).count a =
      (allBuckets res).count a + (if sgd = a then 1 else 0) := by
  cases b <;>
    simp [allBuckets, addToBucket, List.count_append, count_singleton_lc,
          List.count_cons, beq_iff_eq] <;>
    (try split) <;> omega

theorem addToBucket_unresolved (res : ResolveResult) (sgd : List Char)
    (b : SGDBucket) (ds : List GFFRecord) :
    (addToBucket res sgd b ds).unresolved_sgds = res.unresolved_sgds := by
  cases b <;> rfl

theorem count_eq_zero_of_not_mem_lc {a : List Char}
    {l : List (List Char)} (h : a ∉ l) : l.count a = 0 := by
  induction l with
  | nil => rfl
  | cons b t ih =>
    simp only [List.mem_cons, not_or] at h
    simp [List.count_cons, ih h.2, Ne.symm h.1]

theorem nodup_count_eq_one_lc {a : List Char} {l : List (List Char)}
    (hnd : l.Nodup) (hmem : a ∈ l) : l.count a = 1 := by
  induction l with
  | nil => simp at hmem
  | cons b t ih =>
    obtain ⟨hb, ht⟩ := List.nodup_cons.mp hnd
    rcases List.mem_cons.mp hmem with rfl | hmem'
    · simp [List.count_cons, count_eq_zero_of_not_mem_lc hb]
    · have hne : b ≠ a := by rintro rfl; exact hb hmem'
      simp [List.count_cons, ih ht hmem', hne]

theorem resolveLoop_spec {mapping_data : List MappingGene} {m : Int} :
    ∀ {l : List (List Char × List GFFRecord)} {res0 res : ResolveResult},
    resolveLoop mapping_data m l res0 = some res →
    (∀ a, (allBuckets res).count a =
            (allBuckets res0).count a + (l.map Prod.fst).count a) ∧
    res.unresolved_sgds = res0.unresolved_sgds := by
  intro l
  induction l with
  | nil =>
    intro res0 res h
    simp only [resolveLoop, Option.some.injEq] at h
    subst h
    simp
  | cons p rest ih =>
    intro res0 res h
    obtain ⟨sgd, dups⟩ := p
    simp only [resolveLoop] at h
    cases hro : resolveOne mapping_data m sgd dups with
    | none => rw [hro] at h; exact Option.noConfusion h
    | some bd =>
      obtain ⟨b, ds⟩ := bd
      rw [hro] at h
      obtain ⟨hcount, hunres⟩ := ih h
      refine ⟨fun a => ?_, by rw [hunres, addToBucket_unresolved]⟩
      rw [hcount a, allBuckets_addToBucket]
      simp only [List.map_cons, List.count_cons, beq_iff_eq]
      split <;> omega

/-- C4 (confirmed): whenever `GFFResolveDuplicateSGDs` returns, every
duplicated SGD key occurs in the five classification buckets exactly as
often as in the input key list — with distinct keys, each key lands in
exactly one bucket exactly once — and the aggregate unresolved list is
precisely the concatenation of the four unresolved buckets. -/
theorem claim4_classification (gff_data : List GFFRecord)
    (mapping_data : List MappingGene)
    (duplicates : List (List Char × List GFFRecord)) (m : Int)
    (res : ResolveResult)
    (h : GFFResolveDuplicateSGDs gff_data mapping_data duplicates m =
          some res) :
    (∀ sgd, (allBuckets res).count sgd =
              (duplicates.map Prod.fst).count sgd) ∧
    res.unresolved_sgds =
      res.unresolved_sgds_no_mapping_genes ++
      res.unresolved_sgds_no_mapping_genes_after_filter ++
      res.unresolved_sgds_no_overlaps ++
      res.unresolved_sgds_multiple_matches ∧
    ((duplicates.map Prod.fst).Nodup →
      ∀ sgd ∈ duplicates.map Prod.fst, (allBuckets res).count sgd = 1) := by
  simp only [GFFResolveDuplicateSGDs, Option.map_eq_some'] at h
  obtain ⟨res', hloop, hfin⟩ := h
  obtain ⟨hcount, hunres⟩ := resolveLoop_spec hloop
  have hempty : (emptyResult).unresolved_sgds = [] := rfl
  have hAB : allBuckets res = allBuckets res' := by
    subst hfin
    rfl
  have hcount' : ∀ sgd, (allBuckets res).count sgd =
      (duplicates.map Prod.fst).count sgd := by
    intro sgd
    rw [hAB, hcount sgd]
    simp [allBuckets, emptyResult]
  refine ⟨hcount', ?_, ?_⟩
  · subst hfin
    simp only [finishResult]
    rw [hunres, hempty]
    simp
  · intro hnodup sgd hmem
    rw [hcount' sgd]
    exact nodup_count_eq_one_lc hnodup hmem

/-- Candidate gene of the concrete resolution scenario (matches the
repository's own test fixture for `YEL0W01`). -/
def exGene : MappingGene :=
  ⟨("YEL0W01").toList, ("chr1").toList, 39195, 39569, ['-']⟩

/-- First duplicate record of `YEL0W01` (far from the candidate). -/
def exRec1 : GFFRecord :=
  ⟨("chr1").toList, ("CDS").toList, 28789, 29049, ['-'],
    ("CDS:YEL0W01:1").toList, 1⟩

/-- Second duplicate record of `YEL0W01` (overlapping the candidate). -/
def exRec7 : GFFRecord :=
  ⟨("chr1").toList, ("CDS").toList, 39195, 39569, ['-'],
    ("CDS:YEL0W01:1").toList, 7⟩

/-- The duplicates dictionary of the concrete scenario. -/
def exDuplicates : List (List Char × List GFFRecord) :=
  [(("YEL0W01").toList, [exRec1, exRec7])]

/-- The resolution result of the concrete scenario: `YEL0W01` resolved,
`exRec1` discarded. -/
def exResult : ResolveResult :=
  ⟨[("YEL0W01").toList], [], [], [], [], [], [exRec1]⟩

/-- C4 witness: in the concrete scenario the key `YEL0W01` is counted
once across the buckets and the unresolved list is the (empty)
concatenation of the four unresolved buckets. -/
theorem claim4_witness :
    (∀ sgd, (allBuckets exResult).count sgd =
              (exDuplicates.map Prod.fst).count sgd) ∧
    exResult.unresolved_sgds =
      exResult.unresolved_sgds_no_mapping_genes ++
      exResult.unresolved_sgds_no_mapping_genes_after_filter ++
      exResult.unresolved_sgds_no_overlaps ++
      exResult.unresolved_sgds_multiple_matches ∧
    ((exDuplicates.map Prod.fst).Nodup →
      ∀ sgd ∈ exDuplicates.map Prod.fst,
        (allBuckets exResult).count sgd = 1) :=
  claim4_classification [] [exGene] exDuplicates 1000 exResult (by decide)

/-! ## Claim C9: resolution does not mutate its inputs -/

theorem resolveLoopSt_frame {m : Int} :
    ∀ {l : List (List Char × List GFFRecord)} {st : ResolveState}
      {res0 : ResolveResult} {stout : ResolveState} {resout : ResolveResult},
    resolveLoopSt m l st res0 = some (stout, resout) →
    stout = st ∧ resolveLoop st.mapping_data m l res0 = some resout := by
  intro l
  induction l with
  | nil =>
    intro st res0 stout resout h
    simp only [resolveLoopSt, Option.some.injEq, Prod.mk.injEq] at h
    simp [resolveLoop, h.1.symm, h.2]
  | cons p rest ih =>
    intro st res0 stout resout h
    obtain ⟨sgd, dups⟩ := p
    simp only [resolveLoopSt] at h
    cases hro : resolveOne st.mapping_data m sgd dups with
    | none => rw [hro] at h; exact Option.noConfusion h
    | some bd =>
      obtain ⟨b, ds⟩ := bd
      rw [hro] at h
      obtain ⟨hst, hloop⟩ := ih h
      refine ⟨hst, ?_⟩
      simp only [resolveLoop, hro]
      exact hloop

/-- C9 (confirmed): the state-threaded translation of
`GFFResolveDuplicateSGDs` returns its three inputs (GFF records,
mapping table, duplicates dictionary) unchanged — the function only
classifies, and the records selected for removal are reported in the
result's discard list; the pure translation computes the same result
dictionary. -/
theorem claim9_no_mutation (st : ResolveState) (m : Int)
    (st' : ResolveState) (res : ResolveResult)
    (h : GFFResolveDuplicateSGDsSt st m = some (st', res)) :
    st' = st ∧
    GFFResolveDuplicateSGDs st.gff_data st.mapping_data st.duplicates m =
      some res := by
  simp only [GFFResolveDuplicateSGDsSt, Option.map_eq_some'] at h
  obtain ⟨⟨st0, res0⟩, hloop, hfin⟩ := h
  obtain ⟨hst, hpure⟩ := resolveLoopSt_frame hloop
  simp only [Prod.mk.injEq] at hfin
  refine ⟨hfin.1 ▸ hst, ?_⟩
  simp only [GFFResolveDuplicateSGDs, hpure, Option.map_some']
  rw [hfin.2]

/-- The state triple of the concrete scenario. -/
def exState : ResolveState := ⟨[], [exGene], exDuplicates⟩

/-- C9 witness: running the state-threaded resolution on the concrete
scenario returns the state unchanged and the expected result. -/
theorem claim9_witness :
    exState = exState ∧
    GFFResolveDuplicateSGDs exState.gff_data exState.mapping_data
      exState.duplicates 1000 = some exResult :=
  claim9_no_mutation exState 1000 exState exResult (by decide)

/-! ## Codec lemmas for claims C1 and C8 -/

theorem pyIndexOf_not_mem {c : Char} {l : List Char} (h : c ∉ l) :
    pyIndexOf c l = none := by
  induction l with
  | nil => rfl
  | cons a rest ih =>
    simp only [List.mem_cons, not_or] at h
    have hac : ¬ a = c := fun hc => h.1 hc.symm
    simp [pyIndexOf, hac, ih h.2]

theorem pyIndexOf_append_cons {c : Char} {k v : List Char} (h : c ∉ k) :
    pyIndexOf c (k ++ c :: v) = some k.length := by
  induction k with
  | nil => simp [pyIndexOf]
  | cons a k' ih =>
    simp only [List.mem_cons, not_or] at h
    have hac : ¬ a = c := fun hc => h.1 hc.symm
    simp [pyIndexOf, hac, ih h.2]

theorem odSet_fresh {d : List (List Char × List Char)} {k : List Char}
    (h : ∀ q ∈ d, q.1 ≠ k) (v : List Char) :
    odSet d k v = d ++ [(k, v)] := by
  unfold odSet
  rw [if_neg]
  simp only [List.any_eq_true, decide_eq_true_eq, not_exists, not_and]
  exact fun q hq => h q hq

theorem parseItem_kv {k v : List Char} (hk : k ≠ []) (hke : '=' ∉ k)
    (hks : pyStrip k = k) (hvs : pyStrip v = v)
    (d : List (List Char × List Char)) (n : List (List Char)) :
    parseItem (d, n) (k ++ '=' :: v) = (odSet d k (pyUnquote v), n) := by
  have hdrop : (k ++ '=' :: v).drop (k.length + 1) = v := by
    have heq : k ++ '=' :: v = (k ++ ['=']) ++ v := by simp
    have hlen : k.length + 1 = (k ++ ['=']).length := by simp
    rw [heq, hlen, List.drop_left]
  unfold parseItem
  rw [if_neg (by simp : ¬(k ++ '=' :: v = []))]
  rw [pyIndexOf_append_cons hke]
  dsimp only
  rw [List.take_left, hks, hdrop, hvs, if_neg hk]

theorem parseItem_tok {t : List Char} (hne : t ≠ []) (he : '=' ∉ t)
    (d : List (List Char × List Char)) (n : List (List Char)) :
    parseItem (d, n) t = (d, n ++ [pyUnquote (pyStrip t)]) := by
  unfold parseItem
  rw [if_neg hne, pyIndexOf_not_mem he]

theorem foldl_parse_kvs :
    ∀ (kvs : List (List Char × List Char))
      (d : List (List Char × List Char)) (n : List (List Char)),
    (∀ p ∈ kvs, p.1 ≠ [] ∧ '=' ∉ p.1 ∧ pyStrip p.1 = p.1 ∧
      pyStrip p.2 = p.2) →
    (∀ p ∈ kvs, ∀ q ∈ d, q.1 ≠ p.1) →
    (kvs.map Prod.fst).Nodup →
    List.foldl parseItem (d, n) (kvs.map (fun p => p.1 ++ '=' :: p.2)) =
      (d ++ kvs.map (fun p => (p.1, pyUnquote p.2)), n) := by
  intro kvs
  induction kvs with
  | nil => intro d n _ _ _; simp
  | cons p rest ih =>
    intro d n hkv hfresh hnd
    obtain ⟨k, v⟩ := p
    obtain ⟨hk, hke, hks, hvs⟩ := hkv (k, v) (by simp)
    have hkfresh : ∀ q ∈ d, q.1 ≠ k := fun q hq => hfresh (k, v) (by simp) q hq
    simp only [List.map_cons, List.foldl_cons]
    rw [parseItem_kv hk hke hks hvs, odSet_fresh hkfresh]
    have hnd' : (k :: rest.map Prod.fst).Nodup := by simpa using hnd
    have hknotin : k ∉ rest.map Prod.fst := (List.nodup_cons.mp hnd').1
    rw [ih (d ++ [(k, pyUnquote v)]) n
      (fun q hq => hkv q (by simp [hq]))
      (by
        intro q hq r hr
        rcases List.mem_append.mp hr with hr1 | hr1
        · exact hfresh q (by simp [hq]) r hr1
        · simp only [List.mem_singleton] at hr1
          subst hr1
          intro hcontra
          refine hknotin ?_
          rw [show k = q.1 from hcontra]
          exact List.mem_map_of_mem Prod.fst hq)
      (List.nodup_cons.mp hnd').2]
    simp

theorem foldl_parse_toks :
    ∀ (toks : List (List Char)) (d : List (List Char × List Char))
      (n : List (List Char)),
    (∀ t ∈ toks, t ≠ [] ∧ '=' ∉ t) →
    List.foldl parseItem (d, n) toks =
      (d, n ++ toks.map (fun t => pyUnquote (pyStrip t))) := by
  intro toks
  induction toks with
  | nil => intro d n _; simp
  | cons t rest ih =>
    intro d n ht
    obtain ⟨hne, he⟩ := ht t (by simp)
    simp only [List.foldl_cons]
    rw [parseItem_tok hne he, ih d (n ++ [pyUnquote (pyStrip t)])
      (fun x hx => ht x (by simp [hx]))]
    simp

theorem joinWith_concat {sep : Char} {ls : List (List Char)} (h : ls ≠ [])
    (x : List Char) :
    joinWith sep (ls ++ [x]) = joinWith sep ls ++ sep :: x := by
  induction ls with
  | nil => exact absurd rfl h
  | cons s ss ih =>
    cases ss with
    | nil => rfl
    | cons s2 ss' =>
      have := ih (by simp)
      simp only [List.cons_append, joinWith, List.append_eq] at this ⊢
      rw [this]
      simp

theorem joinWith_cons_ne_nil {sep : Char} {s : List Char}
    {rest : List (List Char)} (h : s ≠ []) :
    joinWith sep (s :: rest) ≠ [] := by
  cases rest with
  | nil => exact h
  | cons s2 ss =>
    simp only [joinWith]
    intro hcontra
    rcases List.append_eq_nil.mp hcontra with ⟨_, h2⟩
    exact List.cons_ne_nil _ _ h2

theorem getLast?_joinWith_concat {sep : Char} {ls : List (List Char)}
    {z : List Char} (hz : z ≠ []) :
    (joinWith sep (ls ++ [z])).getLast? = z.getLast? := by
  cases ls with
  | nil => rfl
  | cons s ss =>
    rw [joinWith_concat (List.cons_ne_nil s ss) z,
        List.getLast?_append_of_ne_nil _ (List.cons_ne_nil sep z)]
    obtain ⟨zh, zt, rfl⟩ : ∃ zh zt, z = zh :: zt := by
      cases z with
      | nil => exact absurd rfl hz
      | cons zh zt => exact ⟨zh, zt, rfl⟩
    rw [List.getLast?_cons_cons]

/-- The `safe` set `__escape_value` passes to `urllib.quote` for a
given key. -/
def safeFor (key : List Char) : List Char :=
  if key ∈ multivaluedAttributes then safeMulti else safeDefault

theorem escapeValue_eq (key value : List Char) :
    escapeValue key value = pyQuote (safeFor key) value := by
  unfold escapeValue safeFor
  split <;> rfl

/-- Attribute string assembled from keyed segments (in order), then
unkeyed tokens, then an optional trailing separator — the canonical
shape of the supported attribute grammar. -/
def attrString (kvs : List (List Char × List Char))
    (toks : List (List Char)) (trailing : Bool) : List Char :=
  joinWith ';' (kvs.map (fun p => p.1 ++ '=' :: p.2) ++ toks ++
    (if trailing then [[]] else []))

/-! ## Claim C1: attribute codec round-trip -/

/-- C1 counterexample: `tok;ID=x` is in the supported grammar (an
unkeyed token followed by a keyed segment), but serialization emits
keyed entries before unkeyed tokens, producing `ID=x;tok` — the
round-trip fails as stated. -/
theorem claim1_counterexample :
    GFFAttributes.repr (GFFAttributes.init (("tok;ID=x").toList)) =
      ("ID=x;tok").toList ∧
    GFFAttributes.repr (GFFAttributes.init (("tok;ID=x").toList)) ≠
      ("tok;ID=x").toList := by
  decide

/-- C1 (corrected): the round-trip
`repr (init S) = S` holds for attribute strings in canonical form: all
keyed segments precede all unkeyed tokens; each key is non-empty, free
of `=` and `;`, and whitespace-stripped; keys are pairwise distinct;
each value is free of `;`, whitespace-stripped, and canonically
percent-encoded (re-encoding its decoding reproduces it); each unkeyed
token is non-empty, free of `=` and `;`, whitespace-stripped and free
of percent-escapes; and at most one trailing separator. -/
theorem claim1_roundtrip
    (kvs : List (List Char × List Char)) (toks : List (List Char))
    (trailing : Bool)
    (hkv : ∀ p ∈ kvs, p.1 ≠ [] ∧ '=' ∉ p.1 ∧ ';' ∉ p.1 ∧
      pyStrip p.1 = p.1 ∧ ';' ∉ p.2 ∧ pyStrip p.2 = p.2 ∧
      pyQuote (safeFor p.1) (pyUnquote p.2) = p.2)
    (hnd : (kvs.map Prod.fst).Nodup)
    (ht : ∀ t ∈ toks, t ≠ [] ∧ '=' ∉ t ∧ ';' ∉ t ∧ pyStrip t = t ∧
      pyUnquote t = t) :
    GFFAttributes.repr (GFFAttributes.init (attrString kvs toks trailing)) =
      attrString kvs toks trailing := by
  by_cases hboth : kvs = [] ∧ toks = []
  · obtain ⟨h1, h2⟩ := hboth
    subst h1
    subst h2
    cases trailing <;> rfl
  · -- at least one keyed segment or token
    have hfront_ne : kvs.map (fun p => p.1 ++ '=' :: p.2) ++ toks ≠ [] := by
      intro hc
      obtain ⟨ha, hb⟩ := List.append_eq_nil.mp hc
      exact hboth ⟨List.map_eq_nil_iff.mp ha, hb⟩
    have hfront_prop : ∀ x ∈ kvs.map (fun p => p.1 ++ '=' :: p.2) ++ toks,
        x ≠ [] ∧ ';' ∉ x := by
      intro x hx
      rcases List.mem_append.mp hx with hx1 | hx1
      · obtain ⟨p, hp, rfl⟩ := List.mem_map.mp hx1
        obtain ⟨-, -, h3, -, h5, -, -⟩ := hkv p hp
        refine ⟨by simp, ?_⟩
        intro hc
        rcases List.mem_append.mp hc with hc1 | hc1
        · exact h3 hc1
        · rcases List.mem_cons.mp hc1 with hc2 | hc2
          · exact absurd hc2 (by decide)
          · exact h5 hc2
      · obtain ⟨hne, -, h3, -, -⟩ := ht x hx1
        exact ⟨hne, h3⟩
    have hsegmem : ∀ x ∈ kvs.map (fun p => p.1 ++ '=' :: p.2) ++ toks ++
        (if trailing then [[]] else []), ';' ∉ x := by
      intro x hx
      rcases List.mem_append.mp hx with hx1 | hx1
      · exact (hfront_prop x hx1).2
      · cases trailing with
        | false => simp at hx1
        | true =>
          simp only [if_true, List.mem_singleton] at hx1
          subst hx1
          simp
    have hsegs_ne : kvs.map (fun p => p.1 ++ '=' :: p.2) ++ toks ++
        (if trailing then [[]] else []) ≠ [] := by
      intro hc
      exact hfront_ne (List.append_eq_nil.mp hc).1
    have hS_split := pySplit_joinWith hsegmem hsegs_ne
    -- the joined string is non-empty
    obtain ⟨f0, front', hfront_eq⟩ : ∃ f0 front',
        kvs.map (fun p => p.1 ++ '=' :: p.2) ++ toks = f0 :: front' := by
      cases hfe : kvs.map (fun p => p.1 ++ '=' :: p.2) ++ toks with
      | nil => exact absurd hfe hfront_ne
      | cons f0 front' => exact ⟨f0, front', rfl⟩
    have hf0 : f0 ≠ [] :=
      (hfront_prop f0 (hfront_eq ▸ List.mem_cons_self f0 front')).1
    have hSne : attrString kvs toks trailing ≠ [] := by
      unfold attrString
      rw [hfront_eq]
      cases trailing with
      | false => simpa using joinWith_cons_ne_nil hf0
      | true =>
        simp only [if_true]
        rw [List.cons_append]
        exact joinWith_cons_ne_nil hf0
    -- the tokens are invariant under strip and unquote
    have htoksmap : toks.map (fun t => pyUnquote (pyStrip t)) = toks := by
      have hcong : ∀ t ∈ toks, pyUnquote (pyStrip t) = id t := by
        intro t htt
        obtain ⟨-, -, -, h4, h5⟩ := ht t htt
        simp [h4, h5]
      rw [List.map_congr_left hcong, List.map_id]
    -- the parse fold
    have hfold : List.foldl parseItem ([], [])
        (kvs.map (fun p => p.1 ++ '=' :: p.2) ++ toks ++
          (if trailing then [[]] else [])) =
        (kvs.map (fun p => (p.1, pyUnquote p.2)), toks) := by
      rw [List.foldl_append, List.foldl_append]
      rw [foldl_parse_kvs kvs [] []
        (fun p hp => ⟨(hkv p hp).1, (hkv p hp).2.1, (hkv p hp).2.2.2.1,
          (hkv p hp).2.2.2.2.2.1⟩)
        (by simp) hnd]
      rw [foldl_parse_toks toks _ _
        (fun t htt => ⟨(ht t htt).1, (ht t htt).2.1⟩)]
      cases trailing with
      | false => simp [htoksmap]
      | true => simp [htoksmap, parseItem]
    -- the trailing-semicolon flag is recovered
    have hflag : decide ((attrString kvs toks trailing).getLast? =
        some ';') = trailing := by
      cases trailing with
      | true =>
        have : attrString kvs toks true =
            joinWith ';' (kvs.map (fun p => p.1 ++ '=' :: p.2) ++ toks) ++
              ';' :: [] := by
          unfold attrString
          exact joinWith_concat hfront_ne []
        rw [this]
        simp
      | false =>
        have hzne := (hfront_prop _ (List.getLast_mem hfront_ne)).1
        have hzsem := (hfront_prop _ (List.getLast_mem hfront_ne)).2
        have hdecomp := List.dropLast_append_getLast hfront_ne
        have hgl : (attrString kvs toks false).getLast? =
            ((kvs.map (fun p => p.1 ++ '=' :: p.2) ++ toks).getLast
              hfront_ne).getLast? := by
          unfold attrString
          rw [if_neg (by simp : ¬ (false = true)), List.append_nil]
          conv_lhs => rw [← hdecomp]
          exact getLast?_joinWith_concat hzne
        simp only [decide_eq_false_iff_not]
        rw [hgl]
        intro hc
        exact hzsem (List.mem_of_mem_getLast? hc)
    -- the parsed attribute object
    have hinit : GFFAttributes.init (attrString kvs toks trailing) =
        ⟨kvs.map (fun p => (p.1, pyUnquote p.2)), toks, true, trailing⟩ := by
      unfold GFFAttributes.init
      rw [if_neg hSne]
      have hsplit' : pySplit ';' (attrString kvs toks trailing) =
          kvs.map (fun p => p.1 ++ '=' :: p.2) ++ toks ++
            (if trailing then [[]] else []) := hS_split
      simp only [hsplit']
      rw [hfold, hflag]
    rw [hinit]
    -- the serialization side
    have hitems : (kvs.map (fun p => (p.1, pyUnquote p.2))).map
        (fun p => p.1 ++ '=' :: escapeValue p.1 p.2) =
        kvs.map (fun p => p.1 ++ '=' :: p.2) := by
      rw [List.map_map]
      apply List.map_congr_left
      intro p hp
      simp only [Function.comp]
      rw [escapeValue_eq, (hkv p hp).2.2.2.2.2.2]
    unfold GFFAttributes.repr attrString
    simp only [if_true]
    rw [hitems]
    cases trailing <;> simp

/-- Canonical keyed segments for the C1 witness: a default-encoded
value containing an escaped semicolon and a raw space, and a
multi-valued `Parent` value containing a raw comma. -/
def c1kvs : List (List Char × List Char) :=
  [(("ID").toList, ("abc%3B x").toList),
   (("Parent").toList, ("a,b").toList)]

/-- Unkeyed token for the C1 witness. -/
def c1toks : List (List Char) := [("tok1").toList]

/-- C1 witness: the canonical string `ID=abc%3B x;Parent=a,b;tok1;`
round-trips exactly. -/
theorem claim1_witness :
    GFFAttributes.repr (GFFAttributes.init (attrString c1kvs c1toks true)) =
      attrString c1kvs c1toks true :=
  claim1_roundtrip c1kvs c1toks true (by decide) (by decide) (by decide)

/-! ## Claim C8: unkeyed tokens and percent-coding -/

/-- C8 counterexample: the unkeyed token `a%20b` is stored
percent-DECODED (`a b`), not as it appears in the input — parsing does
decode unkeyed tokens. -/
theorem claim8_counterexample :
    (GFFAttributes.init (("a%20b").toList)).nokeys = [("a b").toList] ∧
    (GFFAttributes.init (("a%20b").toList)).nokeys ≠
      [("a%20b").toList] := by
  decide

/-- C8 (corrected): an unkeyed token is whitespace-stripped and
percent-DECODED when parsed (so stored tokens are not verbatim input),
but on serialization the stored token is emitted verbatim with no
percent-encoding applied. -/
theorem claim8_unkeyed (t : List Char) (h1 : '=' ∉ t) (h2 : t ≠ [])
    (h3 : ';' ∉ t) :
    (GFFAttributes.init t).nokeys = [pyUnquote (pyStrip t)] ∧
    GFFAttributes.repr (GFFAttributes.init t) = pyUnquote (pyStrip t) := by
  have hsplit : pySplit ';' t = [t] := pySplit_not_mem h3
  have hflagP : ¬ (t.getLast? = some ';') := by
    intro hc
    exact h3 (List.mem_of_mem_getLast? hc)
  have hinit : GFFAttributes.init t =
      ⟨[], [pyUnquote (pyStrip t)], true, false⟩ := by
    unfold GFFAttributes.init
    rw [if_neg h2]
    simp only [hsplit, List.foldl_cons, List.foldl_nil]
    rw [parseItem_tok h2 h1]
    simp [hflagP]
  rw [hinit]
  exact ⟨rfl, by simp [GFFAttributes.repr, joinWith]⟩

/-- C8 witness: the token `a%20b` is stored as its decoding `a b` and
re-emitted as `a b` without re-encoding. -/
theorem claim8_witness :
    (GFFAttributes.init (("a%20b").toList)).nokeys =
      [pyUnquote (pyStrip (("a%20b").toList))] ∧
    GFFAttributes.repr (GFFAttributes.init (("a%20b").toList)) =
      pyUnquote (pyStrip (("a%20b").toList)) :=
  claim8_unkeyed (("a%20b").toList) (by decide) (by decide) (by decide)

end GFFUtils

